import Mathlib

/-!
Verification development for the potech_bci repository.

The pipeline in src/eeg_four_band_plot.py filters a stream of scalar EEG
samples into four frequency bands with scipy second-order-section (biquad
cascade) IIR filters, carrying the per-band filter state zi across calls.
src/bulb_bci.py maps a thresholded signal to a bulb brightness level.

Numeric values are modelled over the rationals (exact arithmetic as the
idealisation of IEEE doubles).  The scipy calls that the scripts make
(sosfilt, sosfilt_zi, and the input validation of butter) are embedded by
their documented algorithms, generic over the designed filter coefficients;
Python stdlib structures (queue.Queue, collections.deque) are embedded by
their documented semantics.
-/

set_option maxHeartbeats 1000000

namespace PotechBci

/-- One second-order section (biquad) in scipy sos form, with the leading
denominator coefficient normalised to 1 as scipy.signal.butter produces. -/
structure Biquad where
  b0 : ℚ
  b1 : ℚ
  b2 : ℚ
  a1 : ℚ
  a2 : ℚ
  deriving DecidableEq, Repr

/-- Internal state of one biquad: the two delay registers of the
direct-form-II-transposed realisation that scipy.signal.sosfilt uses. -/
abbrev ZState := ℚ × ℚ

/-- One direct-form-II-transposed update of a single section, exactly the
inner loop of scipy.signal.sosfilt: output and next state for one input. -/
def biquadStep (c : Biquad) (x : ℚ) (z : ZState) : ℚ × ZState :=
  let y := c.b0 * x + z.1
  (y, (c.b1 * x + z.2 - c.a1 * y, c.b2 * x - c.a2 * y))

/-- Push one input sample through a cascade of sections, each section
consuming the previous section output, returning the final output and
the updated state of every section (scipy.signal.sosfilt, one sample). -/
def cascadeStep : List Biquad → List ZState → ℚ → ℚ × List ZState
  | [], _, x => (x, [])
  | _ :: _, [], x => (x, [])
  | c :: cs, z :: zs, x =>
    let h := biquadStep c x z
    let rest := cascadeStep cs zs h.1
    (rest.1, h.2 :: rest.2)

/-- scipy.signal.sosfilt over a whole batch of samples: per-sample outputs
together with the final filter state. -/
def sosfilt (sos : List Biquad) : List ℚ → List ZState → List ℚ × List ZState
  | [], zs => ([], zs)
  | x :: xs, zs =>
    let h := cascadeStep sos zs x
    let rest := sosfilt sos xs h.2
    (h.1 :: rest.1, rest.2)

/-- The four EEG bands of the scripts. -/
inductive Band
  | delta
  | alpha
  | beta
  | gamma
  deriving DecidableEq, Repr

/-- A FourBandFilters instance (src/eeg_four_band_plot.py, class
FourBandFilters): per band the designed sos coefficients (self.filters)
and the current filter state (self.zi). -/
structure FourBandFilters where
  filters : Band → List Biquad
  zi : Band → List ZState

/-- FourBandFilters.apply: for each band run sosfilt on the single-sample
list [sample] with the stored zi, store the new zi, return the outputs. -/
def FourBandFilters.apply (f : FourBandFilters) (sample : ℚ) :
    (Band → ℚ) × FourBandFilters :=
  (fun b => ((sosfilt (f.filters b) [sample] (f.zi b)).1).headD 0,
   { filters := f.filters,
     zi := fun b => (sosfilt (f.filters b) [sample] (f.zi b)).2 })

/-- Feed a list of samples one at a time through FourBandFilters.apply on a
single instance, collecting the per-band output of every call in order. -/
def FourBandFilters.applyStream (f : FourBandFilters) :
    List ℚ → (Band → List ℚ) × FourBandFilters
  | [] => (fun _ => [], f)
  | x :: xs =>
    let h := f.apply x
    let rest := h.2.applyStream xs
    (fun b => h.1 b :: rest.1 b, rest.2)

theorem sosfilt_nil (sos : List Biquad) (zs : List ZState) :
    sosfilt sos [] zs = ([], zs) := rfl

theorem sosfilt_cons (sos : List Biquad) (x : ℚ) (xs : List ℚ)
    (zs : List ZState) :
    sosfilt sos (x :: xs) zs =
      ((cascadeStep sos zs x).1 :: (sosfilt sos xs (cascadeStep sos zs x).2).1,
       (sosfilt sos xs (cascadeStep sos zs x).2).2) := rfl

/-- Filtering a batch decomposes over list append: filtering xs ++ ys equals
filtering xs, then filtering ys from the state xs left behind. -/
theorem sosfilt_append (sos : List Biquad) (xs ys : List ℚ) (zs : List ZState) :
    sosfilt sos (xs ++ ys) zs =
      ((sosfilt sos xs zs).1 ++ (sosfilt sos ys (sosfilt sos xs zs).2).1,
       (sosfilt sos ys (sosfilt sos xs zs).2).2) := by
  induction xs generalizing zs with
  | nil => simp [sosfilt]
  | cons x xs ih =>
    simp only [List.cons_append, sosfilt_cons, ih]

/-- scipy.signal.lfilter_zi for a single normalised biquad: the state vector
solving zi = A zi + B, the fixed point of the direct-form-II-transposed
state recursion under a unit step input. -/
def lfilter_zi (c : Biquad) : ZState :=
  let den := 1 + c.a1 + c.a2
  let z0 := (c.b1 + c.b2 - (c.a1 + c.a2) * c.b0) / den
  (z0, c.b2 - c.a2 * c.b0 - c.a2 * z0)

/-- The zero-frequency (DC) gain of one section, b.sum / a.sum, which is the
steady-state value of the section step response. -/
def dcGain (c : Biquad) : ℚ :=
  (c.b0 + c.b1 + c.b2) / (1 + c.a1 + c.a2)

/-- The section loop inside scipy.signal.sosfilt_zi: each section state is
scale * lfilter_zi of the section, where scale is the product of the DC
gains of all earlier sections (the steady input this section sees). -/
def sosfilt_ziAux (scale : ℚ) : List Biquad → List ZState
  | [] => []
  | c :: cs =>
    (scale * (lfilter_zi c).1, scale * (lfilter_zi c).2) ::
      sosfilt_ziAux (scale * dcGain c) cs

/-- scipy.signal.sosfilt_zi: the initial state FourBandFilters.__init__
stores for every band (self.zi[name] = signal.sosfilt_zi(sos) — note: not
scaled by any sample; construction sees no sample at all). -/
def sosfilt_zi (sos : List Biquad) : List ZState :=
  sosfilt_ziAux 1 sos

/-- A cascade state z is the steady state for an infinite run of the input
value v exactly when processing one more sample of value v leaves the
state unchanged. -/
def IsSteadyStateFor (sos : List Biquad) (v : ℚ) (zs : List ZState) : Prop :=
  (cascadeStep sos zs v).2 = zs

instance (sos : List Biquad) (v : ℚ) (zs : List ZState) :
    Decidable (IsSteadyStateFor sos v zs) := by
  unfold IsSteadyStateFor; infer_instance

/-- A section is normalised and non-singular when the denominator polynomial
does not vanish at z = 1; every stable filter, in particular every
Butterworth section scipy designs, satisfies this. -/
def SectionRegular (c : Biquad) : Prop := 1 + c.a1 + c.a2 ≠ 0

/-- A section whose numerator is not a constant multiple of its denominator:
the input value actually reaches the delay registers.  Every Butterworth
band-pass section (zeros on the unit circle at z = 1 and z = -1, poles
strictly inside) satisfies this. -/
def SectionNondegenerate (c : Biquad) : Prop :=
  ¬ (c.b1 = c.a1 * c.b0 ∧ c.b2 = c.a2 * c.b0)

theorem biquadStep_unit_lfilter_zi (c : Biquad) (h : SectionRegular c) :
    biquadStep c 1 (lfilter_zi c) = (dcGain c, lfilter_zi c) := by
  unfold SectionRegular at h
  simp only [biquadStep, lfilter_zi, dcGain]
  refine Prod.ext ?_ (Prod.ext ?_ ?_) <;> field_simp <;> ring

theorem biquadStep_scale (c : Biquad) (s x : ℚ) (z : ZState) :
    biquadStep c (s * x) (s * z.1, s * z.2) =
      (s * (biquadStep c x z).1,
       (s * (biquadStep c x z).2.1, s * (biquadStep c x z).2.2)) := by
  simp only [biquadStep]
  refine Prod.ext ?_ (Prod.ext ?_ ?_) <;> ring

/-- The product of the DC gains of a section list. -/
def dcGainProd : List Biquad → ℚ
  | [] => 1
  | c :: cs => dcGain c * dcGainProd cs

theorem cascadeStep_ziAux (sos : List Biquad)
    (hreg : ∀ c ∈ sos, SectionRegular c) (s : ℚ) :
    cascadeStep sos (sosfilt_ziAux s sos) s =
      (s * dcGainProd sos, sosfilt_ziAux s sos) := by
  induction sos generalizing s with
  | nil => simp [cascadeStep, sosfilt_ziAux, dcGainProd]
  | cons c cs ih =>
    have hc : SectionRegular c := hreg c (List.mem_cons_self c cs)
    have hcs : ∀ d ∈ cs, SectionRegular d := fun d hd =>
      hreg d (List.mem_cons_of_mem c hd)
    have hstep : biquadStep c s
        (s * (lfilter_zi c).1, s * (lfilter_zi c).2) =
        (s * dcGain c, (s * (lfilter_zi c).1, s * (lfilter_zi c).2)) := by
      have h1 := biquadStep_scale c s 1 (lfilter_zi c)
      rw [mul_one] at h1
      rw [h1, biquadStep_unit_lfilter_zi c hc]
    show cascadeStep (c :: cs) _ s = _
    simp only [sosfilt_ziAux, cascadeStep, hstep, ih hcs (s * dcGain c),
      dcGainProd]
    exact Prod.ext (by ring) rfl

/-- C1.  Streaming samples one at a time through FourBandFilters.apply on a
single instance, with the per-band state zi carried across calls, produces
for every band exactly the per-sample outputs of filtering the whole
sequence at once with sosfilt from the same initial state, and leaves the
same final state. -/
theorem fourBand_stream_eq_batch (f : FourBandFilters) (samples : List ℚ)
    (b : Band) :
    (f.applyStream samples).1 b = (sosfilt (f.filters b) samples (f.zi b)).1 ∧
    (f.applyStream samples).2.zi b = (sosfilt (f.filters b) samples (f.zi b)).2 := by
  induction samples generalizing f with
  | nil => exact ⟨rfl, rfl⟩
  | cons x xs ih =>
    have h := ih ⟨f.filters, fun b => (sosfilt (f.filters b) [x] (f.zi b)).2⟩
    constructor
    · show ((f.apply x).1 b :: ((f.apply x).2.applyStream xs).1 b) = _
      rw [sosfilt_cons]
      simp only [FourBandFilters.apply] at h ⊢
      rw [h.1]
      simp [sosfilt]
    · show ((f.apply x).2.applyStream xs).2.zi b = _
      rw [sosfilt_cons]
      simp only [FourBandFilters.apply] at h ⊢
      rw [h.2]
      simp [sosfilt]

/-- If one biquad state is left unchanged both by an input of value 1 and by
an input of value x0 ≠ 1, the section numerator is a constant multiple of
its denominator: the input never reaches the delay registers. -/
theorem steady_two_values_degenerate (c : Biquad) (z : ZState) (x0 : ℚ)
    (hx : x0 ≠ 1)
    (h1 : (biquadStep c 1 z).2 = z)
    (h2 : (biquadStep c x0 z).2 = z) :
    c.b1 = c.a1 * c.b0 ∧ c.b2 = c.a2 * c.b0 := by
  simp only [biquadStep, Prod.ext_iff] at h1 h2
  have hs : x0 - 1 ≠ 0 := sub_ne_zero.mpr hx
  constructor
  · have key : (x0 - 1) * (c.b1 - c.a1 * c.b0) = 0 := by
      linear_combination h2.1 - h1.1
    rcases mul_eq_zero.mp key with h | h
    · exact absurd h hs
    · exact sub_eq_zero.mp h
  · have key : (x0 - 1) * (c.b2 - c.a2 * c.b0) = 0 := by
      linear_combination h2.2 - h1.2
    rcases mul_eq_zero.mp key with h | h
    · exact absurd h hs
    · exact sub_eq_zero.mp h

/-- C2 (amended).  The state stored at construction, sosfilt_zi(sos), is the
steady state for an infinite run of input value 1 — it is computed before
any sample exists and is not scaled by the first sample — and for every
other constant input value x0 it is NOT the steady state, so a constant
run at x0 ≠ 1 does produce a startup transient (for any design whose first
section is regular and not a pure constant gain, as every Butterworth
band-pass section is). -/
theorem fourBand_zi_unit_steady_not_first_sample (c : Biquad) (cs : List Biquad)
    (hreg : ∀ d ∈ c :: cs, SectionRegular d)
    (hnd : SectionNondegenerate c) (x0 : ℚ) (hx : x0 ≠ 1) :
    IsSteadyStateFor (c :: cs) 1 (sosfilt_zi (c :: cs)) ∧
    ¬ IsSteadyStateFor (c :: cs) x0 (sosfilt_zi (c :: cs)) := by
  have h1 : IsSteadyStateFor (c :: cs) 1 (sosfilt_zi (c :: cs)) := by
    unfold IsSteadyStateFor sosfilt_zi
    rw [cascadeStep_ziAux _ hreg 1]
  refine ⟨h1, fun hbad => ?_⟩
  unfold IsSteadyStateFor sosfilt_zi at h1 hbad
  simp only [sosfilt_ziAux, cascadeStep] at h1 hbad
  rw [List.cons.injEq] at h1 hbad
  exact hnd (steady_two_values_degenerate c _ x0 hx h1.1 hbad.1)

/-- A concrete regular, non-degenerate band-pass section (numerator zeros at
z = 1 and z = -1, poles strictly inside the unit circle), standing in for
a designed section, over which the original C2 claim is refuted. -/
def sectionExample : Biquad := ⟨1, 0, -1, 0, 1/2⟩

/-- C2 (counterexample).  For the single-section cascade sectionExample and
first sample value 2, the state the constructor stores (sosfilt_zi, unscaled)
is not the steady state of an infinite run of the first sample's value:
processing one sample of value 2 changes the state. -/
theorem fourBand_zi_not_steady_at_two :
    ¬ IsSteadyStateFor [sectionExample] 2 (sosfilt_zi [sectionExample]) := by
  simp only [IsSteadyStateFor, sosfilt_zi, sosfilt_ziAux, cascadeStep,
    biquadStep, lfilter_zi, sectionExample, List.cons.injEq, Prod.mk.injEq]
  norm_num

/-- C2 (witness).  The amended theorem instantiated at sectionExample and
constant input value 3. -/
theorem fourBand_zi_unit_steady_witness :
    IsSteadyStateFor [sectionExample] 1 (sosfilt_zi [sectionExample]) ∧
    ¬ IsSteadyStateFor [sectionExample] 3 (sosfilt_zi [sectionExample]) :=
  fourBand_zi_unit_steady_not_first_sample sectionExample []
    (by
      intro d hd
      rw [List.mem_singleton] at hd
      subst hd
      simp only [SectionRegular, sectionExample]
      norm_num)
    (by
      simp only [SectionNondegenerate, sectionExample]
      norm_num)
    3 (by norm_num)

/-- One append to a collections.deque with maxlen = cap (the buffers that
main builds with deque(maxlen=BUFFER_SIZE) and the smoothing window of
src/bulb_bci.py with deque(maxlen=SMOOTH_WINDOW)): the new element goes to
the right and elements are discarded from the left down to capacity. -/
def dequePush {α : Type} (cap : ℕ) (buf : List α) (x : α) : List α :=
  let b := buf ++ [x]
  b.drop (b.length - cap)

theorem dequePush_length {α : Type} (cap : ℕ) (buf : List α) (x : α) :
    (dequePush cap buf x).length = buf.length + 1 - (buf.length + 1 - cap) := by
  simp [dequePush]

/-- Folding pushes over a deque that is within capacity keeps exactly the
trailing cap elements of the concatenated history. -/
theorem dequePush_foldl {α : Type} (cap : ℕ) (xs : List α) :
    ∀ buf : List α, buf.length ≤ cap →
      List.foldl (dequePush cap) buf xs =
        (buf ++ xs).drop (buf.length + xs.length - cap) := by
  induction xs with
  | nil =>
    intro buf h
    simp [Nat.sub_eq_zero_of_le h]
  | cons x xs ih =>
    intro buf h
    have hlenB : (dequePush cap buf x).length =
        buf.length + 1 - (buf.length + 1 - cap) := dequePush_length cap buf x
    have hB : (dequePush cap buf x).length ≤ cap := by omega
    rw [List.foldl_cons, ih (dequePush cap buf x) hB]
    have hk : buf.length + 1 - cap ≤ (buf ++ [x]).length := by
      simp only [List.length_append, List.length_singleton]
      omega
    calc (dequePush cap buf x ++ xs).drop
          ((dequePush cap buf x).length + xs.length - cap)
        = ((buf ++ [x]).drop (buf.length + 1 - cap) ++ xs).drop
            ((dequePush cap buf x).length + xs.length - cap) := by
          simp [dequePush]
      _ = ((buf ++ [x] ++ xs).drop (buf.length + 1 - cap)).drop
            ((dequePush cap buf x).length + xs.length - cap) := by
          rw [List.drop_append_of_le_length hk]
      _ = (buf ++ [x] ++ xs).drop
            (buf.length + 1 - cap +
              ((dequePush cap buf x).length + xs.length - cap)) := by
          rw [List.drop_drop, Nat.add_comm]
      _ = (buf ++ x :: xs).drop (buf.length + (xs.length + 1) - cap) := by
          rw [List.append_assoc, List.singleton_append]
          congr 1
          omega

/-- C4.  A circular buffer of capacity cap (deque(maxlen=cap)), after M > cap
pushes starting empty, contains exactly the last cap pushed values in
arrival order; once full, each push evicts exactly the oldest element. -/
theorem circularBuffer_last_cap (cap : ℕ) (xs buf : List ℚ) (x : ℚ)
    (_hM : cap < xs.length) (hcap : 0 < cap) (hfull : buf.length = cap) :
    List.foldl (dequePush cap) [] xs = xs.drop (xs.length - cap) ∧
    dequePush cap buf x = buf.drop 1 ++ [x] := by
  constructor
  · have h := dequePush_foldl cap xs [] (by simp)
    simpa using h
  · have h1 : buf.length + 1 - cap = 1 := by omega
    have h2 : (1 : ℕ) ≤ buf.length := by omega
    simp only [dequePush, List.length_append, List.length_singleton, h1]
    rw [List.drop_append_of_le_length h2]

/-- C4 (witness).  Capacity 2, five pushes: the buffer holds the last two
values in arrival order, and a push on the full buffer [8, 9] evicts 8. -/
theorem circularBuffer_last_cap_witness :
    List.foldl (dequePush 2) ([] : List ℚ) [1, 2, 3, 4, 5] =
        List.drop 3 [1, 2, 3, 4, 5] ∧
    dequePush 2 [8, 9] (7 : ℚ) = List.drop 1 [8, 9] ++ [7] :=
  circularBuffer_last_cap 2 [1, 2, 3, 4, 5] [8, 9] 7
    (by norm_num) (by norm_num) (by norm_num)

/-- The five plotting buffers of main: one raw buffer and one buffer per
band, all built as deque(maxlen=BUFFER_SIZE). -/
structure ConsumerBuffers where
  raw : List ℚ
  band : Band → List ℚ

/-- One iteration of the consumer loop body of main (and of main_fall) for a
retained sample: append the sample to the raw buffer, apply the filter
bank, append each band output to that band's buffer. -/
def consumerStep (cap : ℕ) (s : ConsumerBuffers × FourBandFilters)
    (sample : ℚ) : ConsumerBuffers × FourBandFilters :=
  let h := s.2.apply sample
  ({ raw := dequePush cap s.1.raw sample,
     band := fun b => dequePush cap (s.1.band b) (h.1 b) }, h.2)

/-- The consumer loop run over a list of retained samples, starting from
empty buffers. -/
def consumerRun (cap : ℕ) (f : FourBandFilters) (samples : List ℚ) :
    ConsumerBuffers × FourBandFilters :=
  List.foldl (consumerStep cap) (⟨[], fun _ => []⟩, f) samples

theorem consumerStep_band_raw (cap : ℕ) (samples : List ℚ) :
    ∀ s : ConsumerBuffers × FourBandFilters,
      (∀ b, (s.1.band b).length = s.1.raw.length) →
      ∀ b, ((List.foldl (consumerStep cap) s samples).1.band b).length =
        (List.foldl (consumerStep cap) s samples).1.raw.length := by
  induction samples with
  | nil => intro s h b; exact h b
  | cons x xs ih =>
    intro s h b
    rw [List.foldl_cons]
    refine ih _ (fun b => ?_) b
    simp only [consumerStep, dequePush_length, h b]

theorem consumerRun_raw_length (cap : ℕ) (samples : List ℚ) :
    ∀ s : ConsumerBuffers × FourBandFilters, s.1.raw.length ≤ cap →
      (List.foldl (consumerStep cap) s samples).1.raw.length =
        min (s.1.raw.length + samples.length) cap := by
  induction samples with
  | nil => intro s h; simpa using Nat.min_eq_left h |>.symm ▸ by omega
  | cons x xs ih =>
    intro s h
    rw [List.foldl_cons]
    have hlen : ((consumerStep cap s x).1.raw).length =
        s.1.raw.length + 1 - (s.1.raw.length + 1 - cap) := by
      simp only [consumerStep, dequePush_length]
    have h2 : ((consumerStep cap s x).1.raw).length ≤ cap := by omega
    rw [ih _ h2]
    simp only [List.length_cons]
    omega

/-- C9.  In the four-band consumer loop each retained sample appends exactly
once to the raw buffer and once to each band buffer, so after any run from
empty buffers all five buffers hold the same number of elements, namely the
number of retained samples capped at the buffer capacity. -/
theorem consumer_buffers_equal_length (cap : ℕ) (f : FourBandFilters)
    (samples : List ℚ) (b : Band) :
    (consumerRun cap f samples).1.raw.length = min samples.length cap ∧
    ((consumerRun cap f samples).1.band b).length = min samples.length cap := by
  have hraw := consumerRun_raw_length cap samples (⟨[], fun _ => []⟩, f)
    (by simp)
  simp only [List.length_nil, Nat.zero_add] at hraw
  have hband := consumerStep_band_raw cap samples (⟨[], fun _ => []⟩, f)
    (fun _ => rfl) b
  exact ⟨hraw, by rw [consumerRun] at *; rw [hband, hraw]⟩

/-- SMOOTH_WINDOW of src/bulb_bci.py: the maxlen of the moving-average
window deque. -/
def SMOOTH_WINDOW : ℕ := 8

/-- The while loop of SerialEEGReader.read_latest: repeatedly get_nowait
into latest_val until the queue is empty, starting from latest_val = None. -/
def readLatestLoop : Option ℚ → List ℚ → Option ℚ
  | acc, [] => acc
  | _, x :: xs => readLatestLoop (some x) xs

/-- SerialEEGReader.read_latest: drain the whole queue, return the most
recently enqueued value (or None when the queue was empty). -/
def read_latest (q : List ℚ) : Option ℚ × List ℚ :=
  (readLatestLoop none q, [])

/-- The samples that one iteration of the four-band consumer loop actually
feeds to the filter bank: read_latest yields at most one sample. -/
def fourBandRetained (q : List ℚ) : List ℚ :=
  (read_latest q).1.toList

/-- compute_moving_average of src/bulb_bci.py: append the new value to the
window deque (maxlen = SMOOTH_WINDOW) and return the mean of the window. -/
def compute_moving_average (window : List ℚ) (v : ℚ) : List ℚ × ℚ :=
  let w := dequePush SMOOTH_WINDOW window v
  (w, w.sum / w.length)

/-- The drain loop of poll_queue_and_update in src/bulb_bci.py: get every
queued value in arrival order, feed each one into the moving average,
remembering the last raw and last smoothed value. -/
def bulbPoll (q : List ℚ) (w : List ℚ) : List ℚ × Option ℚ × Option ℚ :=
  List.foldl (fun s v =>
    let m := compute_moving_average s.1 v
    (m.1, some v, some m.2)) (w, none, none) q

theorem getLast?_cons_or {α : Type} (x : α) (xs : List α) :
    (x :: xs).getLast? = xs.getLast?.or (some x) := by
  induction xs generalizing x with
  | nil => simp
  | cons y ys ih =>
    rw [List.getLast?_cons_cons, ih y]
    cases ys.getLast? <;> simp [Option.or]

theorem readLatestLoop_getLast (q : List ℚ) :
    ∀ acc : Option ℚ, readLatestLoop acc q = q.getLast?.or acc := by
  induction q with
  | nil => intro acc; simp [readLatestLoop]
  | cons x xs ih =>
    intro acc
    rw [show readLatestLoop acc (x :: xs) = readLatestLoop (some x) xs from rfl,
      ih (some x), getLast?_cons_or]
    cases xs.getLast? <;> rfl

theorem bulbPoll_window (q : List ℚ) :
    ∀ w r s, (List.foldl (fun t v =>
        let m := compute_moving_average t.1 v
        (m.1, some v, some m.2)) (w, r, s) q).1 =
      List.foldl (dequePush SMOOTH_WINDOW) w q := by
  induction q with
  | nil => intro w r s; rfl
  | cons x xs ih =>
    intro w r s
    rw [List.foldl_cons, List.foldl_cons]
    exact ih _ _ _

/-- C3 (amended).  The policies are the reverse of the claim: the FOUR-BAND
variant's read_latest drains the queue and keeps only the most recently
enqueued sample, so at most one sample per poll reaches the filters, while
the BULB variant's poll loop feeds every queued sample in arrival order
into the moving-average window (only the last one drives the bulb). -/
theorem drain_policies (q w : List ℚ) :
    (bulbPoll q w).1 = List.foldl (dequePush SMOOTH_WINDOW) w q ∧
    (read_latest q).1 = q.getLast? ∧
    fourBandRetained q = q.getLast?.toList := by
  refine ⟨bulbPoll_window q w none none, ?_, ?_⟩
  · show readLatestLoop none q = q.getLast?
    rw [readLatestLoop_getLast q none]
    cases q.getLast? <;> rfl
  · show (readLatestLoop none q).toList = q.getLast?.toList
    rw [readLatestLoop_getLast q none]
    cases q.getLast? <;> rfl

/-- C3 (counterexample).  With queued samples [1, 2, 3] and an empty window:
the bulb variant does NOT drop all but the latest (its window receives all
of 1, 2, 3), and the four-band variant does NOT process every queued sample
(only 3 reaches the filters). -/
theorem drain_policies_counterexample :
    (bulbPoll [1, 2, 3] []).1 ≠ [3] ∧
    fourBandRetained [1, 2, 3] ≠ [1, 2, 3] := by
  constructor
  · intro h
    have hw : (bulbPoll [1, 2, 3] []).1 = [1, 2, 3] := by
      have h0 : (bulbPoll [1, 2, 3] []).1 =
          List.foldl (dequePush SMOOTH_WINDOW) [] [1, 2, 3] :=
        bulbPoll_window [1, 2, 3] [] none none
      rw [h0]
      rfl
    rw [hw] at h
    have hlen := congrArg List.length h
    simp at hlen
  · intro h
    have hr : fourBandRetained [1, 2, 3] = [3] := rfl
    rw [hr] at h
    have hlen := congrArg List.length h
    simp at hlen

/-- A Python queue.Queue as used for the hand-off channel: maxsize and the
FIFO contents.  maxsize = 0 (the default, used at src/eeg_four_band_plot.py
line 61 and src/bulb_bci.py line 24) means an unbounded queue. -/
structure PyQueue where
  maxsize : ℕ
  items : List ℚ

/-- queue.Queue.put: blocks (modelled as none) only while 0 < maxsize and
the queue already holds at least maxsize items; otherwise appends. -/
def PyQueue.put (q : PyQueue) (v : ℚ) : Option PyQueue :=
  if 0 < q.maxsize ∧ q.maxsize ≤ q.items.length then none
  else some { q with items := q.items ++ [v] }

/-- The hand-off channel as both scripts create it: queue.Queue() with the
default maxsize of 0. -/
def val_queue_init : PyQueue := ⟨0, []⟩

/-- n producer puts in a row with no intervening consumption (the consumer
polls on its own cadence and need not run between reads): each reachable
after the previous. -/
def produceN (q : PyQueue) : ℕ → PyQueue
  | 0 => q
  | n + 1 =>
    match (produceN q n).put 0 with
    | some q2 => q2
    | none => produceN q n

theorem produceN_spec (n : ℕ) :
    (produceN val_queue_init n).maxsize = 0 ∧
    (produceN val_queue_init n).items.length = n := by
  induction n with
  | zero => exact ⟨rfl, rfl⟩
  | succ n ih =>
    have hput : (produceN val_queue_init n).put 0 =
        some { produceN val_queue_init n with
               items := (produceN val_queue_init n).items ++ [0] } := by
      rw [PyQueue.put, if_neg]
      rw [ih.1]
      simp
    simp only [produceN, hput]
    exact ⟨ih.1, by simp [ih.2]⟩

/-- C5 (counterexample).  The hand-off channel is NOT bounded: there is no
finite bound that the number of enqueued samples never exceeds — for any
candidate bound B, the reachable state after B + 1 producer puts holds
B + 1 samples. -/
theorem handoff_channel_not_bounded :
    ¬ ∃ B : ℕ, ∀ n : ℕ, (produceN val_queue_init n).items.length ≤ B := by
  rintro ⟨B, hB⟩
  have h := hB (B + 1)
  rw [(produceN_spec (B + 1)).2] at h
  omega

/-- C5 (amended).  Both scripts create the channel as queue.Queue() with the
default maxsize 0, i.e. unbounded: a put never blocks, and n consecutive
puts with no consumption leave n samples enqueued — memory is not bounded
by any configured capacity. -/
theorem handoff_channel_unbounded (n : ℕ) (q : PyQueue) (v : ℚ)
    (hq : q.maxsize = 0) :
    (produceN val_queue_init n).items.length = n ∧
    val_queue_init.maxsize = 0 ∧
    (q.put v).isSome = true := by
  refine ⟨(produceN_spec n).2, rfl, ?_⟩
  rw [PyQueue.put, if_neg]
  · rfl
  · rw [hq]
    simp

/-- C5 (witness).  The amended theorem at n = 3 on a queue holding two
samples. -/
theorem handoff_channel_unbounded_witness :
    (produceN val_queue_init 3).items.length = 3 ∧
    val_queue_init.maxsize = 0 ∧
    ((⟨0, [4, 5]⟩ : PyQueue).put 6).isSome = true :=
  handoff_channel_unbounded 3 ⟨0, [4, 5]⟩ 6 rfl

/-- Numeric value of one decimal digit character. -/
def digitVal (c : Char) : ℕ := c.toNat - 48

/-- Value of a digit string read in base 10. -/
def digitsVal (l : List Char) : ℕ := l.foldl (fun a c => 10 * a + digitVal c) 0

/-- True when every character of the list is a decimal digit. -/
def allDigits (l : List Char) : Bool := l.all (fun c => c.isDigit)

/-- Strip one optional leading sign, returning whether it was a minus. -/
def stripSign : List Char → Bool × List Char
  | '-' :: r => (true, r)
  | '+' :: r => (false, r)
  | s => (false, s)

/-- Value of the mantissa part of a float literal: digits with an optional
decimal point, at least one digit in total. -/
def mantissaVal (m : List Char) : Option ℚ :=
  match m.splitOn '.' with
  | [i] =>
    if !i.isEmpty && allDigits i then some (digitsVal i : ℚ) else none
  | [i, f] =>
    if !(i ++ f).isEmpty && allDigits i && allDigits f then
      some ((digitsVal i : ℚ) + (digitsVal f : ℚ) / 10 ^ f.length)
    else none
  | _ => none

/-- Value of the exponent part of a float literal: optional sign then at
least one digit. -/
def expVal (ex : List Char) : Option ℤ :=
  let h := stripSign ex
  if !h.2.isEmpty && allDigits h.2 then
    some (if h.1 then -(digitsVal h.2 : ℤ) else (digitsVal h.2 : ℤ))
  else none

/-- Core of the Python float() conversion on a character list: optional
sign, mantissa, optional e/E exponent. -/
def pyFloatChars (s : List Char) : Option ℚ :=
  let h := stripSign s
  match (h.2.map Char.toLower).splitOn 'e' with
  | [m] =>
    match mantissaVal m with
    | some v => some (if h.1 then -v else v)
    | none => none
  | [m, ex] =>
    match mantissaVal m, expVal ex with
    | some v, some e =>
      let av := v * (10 : ℚ) ^ e
      some (if h.1 then -av else av)
    | _, _ => none
  | _ => none

/-- Python float(s) on the finite decimal-literal fragment (the inf/nan and
underscore forms are outside this model): surrounding whitespace is
ignored, a non-literal raises ValueError, modelled as none. -/
def pyFloat (s : String) : Option ℚ := pyFloatChars s.trim.data

/-- The per-line body of SerialEEGReader._read_loop (and of serial_reader in
src/bulb_bci.py): strip the line, skip it when empty, take the first
comma-field when a comma is present, convert with float() and enqueue on
success; the ValueError of a failed conversion is caught and the line is
skipped, so the body never raises and is a total function on lines. -/
def processLine (line : String) (q : List ℚ) : List ℚ :=
  let l := line.trim
  if l = "" then q
  else
    let l2 := if l.contains ',' then (l.splitOn ",").headD "" else l
    match pyFloat l2 with
    | some v => q ++ [v]
    | none => q

/-- Spec-side parse contract, written from the spec's words: an empty line
yields nothing, a comma-separated line contributes its first field's float
value, a bare float line contributes its value, anything else is noise. -/
def specParseLine (line : String) : Option ℚ :=
  let l := line.trim
  if l = "" then none
  else if l.contains ',' then pyFloat ((l.splitOn ",").headD "")
  else pyFloat l

/-- C6.  The reader's per-line step is total (never raises) and refines the
spec's parse contract: it enqueues exactly the value of specParseLine when
one exists and enqueues nothing otherwise — empty lines and non-numeric
lines are silently skipped, bare floats and first comma-fields are
enqueued. -/
theorem read_loop_parse_refines_spec (line : String) (q : List ℚ) :
    processLine line q = q ++ (specParseLine line).toList := by
  simp only [processLine, specParseLine]
  by_cases h1 : line.trim = ""
  · simp [h1]
  · by_cases h2 : line.trim.contains ','
    · cases h : pyFloat ((line.trim.splitOn ",").head?.getD "") <;>
        simp [h1, h2, h]
    · cases h : pyFloat line.trim <;> simp [h1, h2, h]

/-- Python int() on a rational value: truncation toward zero. -/
def truncQ (q : ℚ) : ℤ := q.num.tdiv q.den

/-- The two clamping ifs at the end of map_to_brightness: a negative level
becomes 0, a level above 10 becomes 10. -/
def brightnessClamp (level : ℤ) : ℤ :=
  let level2 := if level < 0 then 0 else level
  if level2 > 10 then 10 else level2

/-- map_to_brightness of src/bulb_bci.py: absolute value at or below the
threshold is brightness 0; above it, the linear mapping of the excess over
(max_signal - threshold) — a zero denominator is replaced by 1.0 — scaled
by 10, truncated, then clamped into 0..10. -/
def map_to_brightness (value_abs threshold max_signal : ℚ) : ℤ :=
  if value_abs ≤ threshold then 0
  else
    let denom := if max_signal - threshold ≠ 0 then max_signal - threshold else 1
    let normalized := (value_abs - threshold) / denom
    brightnessClamp (truncQ (normalized * 10))

theorem brightnessClamp_spec (L : ℤ) :
    0 ≤ brightnessClamp L ∧ brightnessClamp L ≤ 10 ∧
    (10 < L → brightnessClamp L = 10) ∧
    brightnessClamp L = min 10 (max 0 L) := by
  by_cases h1 : L < 0 <;> by_cases h2 : L > 10 <;>
    simp [brightnessClamp, h1, h2] <;> omega

/-- C10.  map_to_brightness is total with values in 0..10: it returns 0
whenever the absolute value is at most the threshold, clamps any truncated
level above 10 down to 10 (and below 0 up to 0), and when max_signal equals
the threshold the denominator is replaced by 1 so the result is the clamp
of trunc((value - threshold) * 10) — no division by zero happens. -/
theorem map_to_brightness_range (v t m : ℚ) :
    0 ≤ map_to_brightness v t m ∧
    map_to_brightness v t m ≤ 10 ∧
    (v ≤ t → map_to_brightness v t m = 0) ∧
    (¬ v ≤ t →
      10 < truncQ ((v - t) / (if m - t ≠ 0 then m - t else 1) * 10) →
      map_to_brightness v t m = 10) ∧
    (¬ v ≤ t →
      map_to_brightness v t t = min 10 (max 0 (truncQ ((v - t) * 10)))) := by
  unfold map_to_brightness
  by_cases hvt : v ≤ t
  · simp [hvt]
  · simp only [if_neg hvt]
    obtain ⟨s1, s2, s3, _⟩ := brightnessClamp_spec
      (truncQ ((v - t) / (if m - t ≠ 0 then m - t else 1) * 10))
    refine ⟨s1, s2, fun h => absurd h hvt, fun _ h => s3 h, fun _ => ?_⟩
    show brightnessClamp
        (truncQ ((v - t) / (if t - t ≠ 0 then t - t else 1) * 10)) = _
    rw [show (if t - t ≠ 0 then t - t else (1 : ℚ)) = 1 by simp, div_one]
    exact (brightnessClamp_spec (truncQ ((v - t) * 10))).2.2.2

/-- C10 (witness).  The full conjunction instantiated at value 200,
threshold 120, max_signal 500. -/
theorem map_to_brightness_range_witness :
    0 ≤ map_to_brightness 200 120 500 ∧
    map_to_brightness 200 120 500 ≤ 10 ∧
    ((200 : ℚ) ≤ 120 → map_to_brightness 200 120 500 = 0) ∧
    (¬ (200 : ℚ) ≤ 120 →
      10 < truncQ ((200 - 120) / (if (500 : ℚ) - 120 ≠ 0 then 500 - 120 else 1) * 10) →
      map_to_brightness 200 120 500 = 10) ∧
    (¬ (200 : ℚ) ≤ 120 →
      map_to_brightness 200 120 120 = min 10 (max 0 (truncQ ((200 - 120) * 10)))) :=
  map_to_brightness_range 200 120 500

/-- The band table of FourBandFilters.__init__: name, low cutoff, high
cutoff in hertz, in Python dict insertion order. -/
def bands_hz : List (String × ℚ × ℚ) :=
  [("delta", 1/2, 4), ("alpha", 8, 13), ("beta", 13, 30), ("gamma", 30, 100)]

/-- The input validation scipy.signal.butter performs on the normalised
critical frequencies of a digital filter: each must satisfy 0 < Wn < 1,
otherwise a ValueError is raised at the call. -/
def butterBandCheck (lo_n hi_n : ℚ) : Except String Unit :=
  if 0 < lo_n ∧ lo_n < 1 ∧ 0 < hi_n ∧ hi_n < 1 then Except.ok ()
  else Except.error "Digital filter critical frequencies must be 0 < Wn < 1"

/-- The loop of FourBandFilters.__init__ over the band table: each band's
cutoffs are normalised by the Nyquist frequency and handed to butter; the
first failing band aborts construction with the error. -/
def checkBands (nyquist : ℚ) : List (String × ℚ × ℚ) → Except String Unit
  | [] => Except.ok ()
  | (_, lo, hi) :: rest =>
    match butterBandCheck (lo / nyquist) (hi / nyquist) with
    | Except.ok _ => checkBands nyquist rest
    | Except.error e => Except.error e

/-- Whether FourBandFilters(sample_rate) constructs without raising.  main
constructs the filter bank on its first line, before the serial reader and
the consumer loop start, so a failure here means the pipeline never runs. -/
def fourBandInitCheck (sample_rate : ℚ) : Except String Unit :=
  checkBands (sample_rate / 2) bands_hz

/-- True when fourBandInitCheck succeeds. -/
def initSucceeds (sample_rate : ℚ) : Bool :=
  match fourBandInitCheck sample_rate with
  | Except.ok _ => true
  | Except.error _ => false

theorem butterBandCheck_ok (lo hi r : ℚ) (h0 : 0 < lo) (hlh : lo ≤ hi)
    (hhi : hi < r / 2) :
    butterBandCheck (lo / (r / 2)) (hi / (r / 2)) = Except.ok () := by
  have hn : 0 < r / 2 := by linarith
  rw [butterBandCheck, if_pos]
  exact ⟨div_pos h0 hn, (div_lt_one hn).mpr (by linarith),
    div_pos (by linarith) hn, (div_lt_one hn).mpr hhi⟩

/-- C7.  With all eight cutoffs strictly below Nyquist — exactly when the
sample rate exceeds 200 Hz, e.g. the script's 250 Hz — construction of the
filter bank succeeds; when some cutoff reaches Nyquist (sample rate at most
200 Hz, where the gamma high cutoff of 100 Hz is at or above sample_rate/2)
butter raises at construction, before the pipeline starts. -/
theorem fourBand_init_nyquist_check (r : ℚ) (h0 : 0 < r) :
    (200 < r → initSucceeds r = true) ∧
    (r ≤ 200 → initSucceeds r = false) := by
  constructor
  · intro hr
    have hd := butterBandCheck_ok (1/2) 4 r (by norm_num) (by norm_num)
      (by linarith)
    have ha := butterBandCheck_ok 8 13 r (by norm_num) (by norm_num)
      (by linarith)
    have hb := butterBandCheck_ok 13 30 r (by norm_num) (by norm_num)
      (by linarith)
    have hg := butterBandCheck_ok 30 100 r (by norm_num) (by norm_num)
      (by linarith)
    simp only [initSucceeds, fourBandInitCheck, bands_hz, checkBands,
      hd, ha, hb, hg]
  · intro hr
    have hn : 0 < r / 2 := by linarith
    have hgbad : butterBandCheck (30 / (r / 2)) (100 / (r / 2)) =
        Except.error "Digital filter critical frequencies must be 0 < Wn < 1" := by
      rw [butterBandCheck, if_neg]
      intro hcond
      have h4 := hcond.2.2.2
      rw [div_lt_one hn] at h4
      linarith
    simp only [initSucceeds, fourBandInitCheck, bands_hz, checkBands, hgbad]
    rcases hda : butterBandCheck ((1/2) / (r / 2)) (4 / (r / 2)) with e | u
    · rfl
    · rcases haa : butterBandCheck (8 / (r / 2)) (13 / (r / 2)) with e | u
      · rfl
      · rcases hba : butterBandCheck (13 / (r / 2)) (30 / (r / 2)) with e | u
        · rfl
        · rfl

/-- C7 (witness).  Construction succeeds at 250 Hz and fails at 200 Hz. -/
theorem fourBand_init_nyquist_check_witness :
    initSucceeds 250 = true ∧ initSucceeds 200 = false :=
  ⟨(fourBand_init_nyquist_check 250 (by norm_num)).1 (by norm_num),
   (fourBand_init_nyquist_check 200 (by norm_num)).2 (by norm_num)⟩

/-- Segment names of the synthetic fallback generator of main_fall, cycled
low -> moderate -> high. -/
def seg_names : List String := ["low", "moderate", "high"]

/-- segment_samples of main_fall: int(8.0 * SAMPLE_RATE) with the script's
SAMPLE_RATE of 250 Hz, i.e. 2000 ticks per regime. -/
def segment_samples : ℕ := 2000

/-- The per-segment amplitudes of main_fall, in the order a_delta, a_alpha,
a_beta, a_gamma, noise_scale, selected by segment name as the code does. -/
def segAmps (seg : String) : ℚ × ℚ × ℚ × ℚ × ℚ :=
  if seg = "low" then (30, 20, 10, 5, 5)
  else if seg = "moderate" then (60, 40, 25, 15, 10)
  else (120, 90, 60, 40, 15)

/-- The mutable loop state of main_fall: the signal time t, the segment
index and intra-segment tick counter, and the wall-clock timestamp of the
last plot refresh. -/
structure FallState where
  t : ℚ
  segIdx : ℕ
  segCount : ℕ
  lastUi : ℚ

/-- One iteration of the main_fall generation loop.  sinTerm f phi t stands
for sin(2*pi*f*t + phi) (a fixed function of its arguments, as floating
point sine is); noise k stands for the k-th unit draw of the numpy RNG, so
that the same seed yields the same noise stream; now k is the wall-clock
oracle read by the plot-refresh branch.  Returns the raw sample composed
for this tick and the next state. -/
def fallStep (sinTerm : ℚ → ℚ → ℚ → ℚ) (noise : ℕ → ℚ) (now : ℕ → ℚ)
    (k : ℕ) (s : FallState) : ℚ × FallState :=
  let amps := segAmps (seg_names.getD s.segIdx "high")
  let raw := amps.1 * sinTerm 2 0 s.t + amps.2.1 * sinTerm 10 (7/10) s.t
    + amps.2.2.1 * sinTerm 20 (13/10) s.t
    + amps.2.2.2.1 * sinTerm 40 (21/10) s.t
    + amps.2.2.2.2 * noise k
  let segCount2 := s.segCount + 1
  let roll := segment_samples ≤ segCount2
  let segCount3 := if roll then 0 else segCount2
  let segIdx2 := if roll then (s.segIdx + 1) % seg_names.length else s.segIdx
  let t2 := s.t + 1 / 250
  let lastUi2 := if 1 / 20 < now k - s.lastUi then now k else s.lastUi
  (raw, ⟨t2, segIdx2, segCount3, lastUi2⟩)

/-- The main_fall loop state just before tick k, starting from t = 0, the
low segment, and an initial last-refresh timestamp u0. -/
def fallStateAt (sinTerm : ℚ → ℚ → ℚ → ℚ) (noise : ℕ → ℚ) (now : ℕ → ℚ)
    (u0 : ℚ) : ℕ → FallState
  | 0 => ⟨0, 0, 0, u0⟩
  | k + 1 =>
    (fallStep sinTerm noise now k (fallStateAt sinTerm noise now u0 k)).2

/-- The raw synthetic sample main_fall composes at tick k. -/
def fallRawAt (sinTerm : ℚ → ℚ → ℚ → ℚ) (noise : ℕ → ℚ) (now : ℕ → ℚ)
    (u0 : ℚ) (k : ℕ) : ℚ :=
  (fallStep sinTerm noise now k (fallStateAt sinTerm noise now u0 k)).1

theorem fallStateAt_gen_eq (sinTerm : ℚ → ℚ → ℚ → ℚ) (noise : ℕ → ℚ)
    (now1 now2 : ℕ → ℚ) (u1 u2 : ℚ) (k : ℕ) :
    (fallStateAt sinTerm noise now1 u1 k).t =
      (fallStateAt sinTerm noise now2 u2 k).t ∧
    (fallStateAt sinTerm noise now1 u1 k).segIdx =
      (fallStateAt sinTerm noise now2 u2 k).segIdx ∧
    (fallStateAt sinTerm noise now1 u1 k).segCount =
      (fallStateAt sinTerm noise now2 u2 k).segCount := by
  induction k with
  | zero => exact ⟨rfl, rfl, rfl⟩
  | succ k ih =>
    obtain ⟨ht, hi, hc⟩ := ih
    simp [fallStateAt, fallStep, ht, hi, hc]

/-- C8.  The synthetic generator is deterministic given the seed: two runs
of main_fall sharing the RNG stream (the seed) but with arbitrary, possibly
different wall-clock timings of the plot-refresh branch produce the same
raw sample at every tick of one full three-regime cycle (6000 ticks at
250 Hz). -/
theorem fall_deterministic_given_seed (sinTerm : ℚ → ℚ → ℚ → ℚ)
    (noise : ℕ → ℚ) (now1 now2 : ℕ → ℚ) (u1 u2 : ℚ) (k : ℕ)
    (_hk : k < 3 * segment_samples) :
    fallRawAt sinTerm noise now1 u1 k = fallRawAt sinTerm noise now2 u2 k := by
  obtain ⟨ht, hi, _⟩ := fallStateAt_gen_eq sinTerm noise now1 now2 u1 u2 k
  simp only [fallRawAt, fallStep, ht, hi]

/-- C8 (witness).  Concrete instantiation at tick 5 with two different
timing oracles and initial refresh timestamps. -/
theorem fall_deterministic_given_seed_witness :
    fallRawAt (fun _ _ t => t) (fun j => (j : ℚ)) (fun _ => 0) 0 5 =
      fallRawAt (fun _ _ t => t) (fun j => (j : ℚ)) (fun j => (j : ℚ)) 7 5 :=
  fall_deterministic_given_seed (fun _ _ t => t) (fun j => (j : ℚ))
    (fun _ => 0) (fun j => (j : ℚ)) 0 7 5 (by norm_num [segment_samples])

end PotechBci
